import Mathlib

/-!
Verification of the pgweb in-process cache package (`pkg/cache`): a TTL- and
memory-bounded key-value store with expiry-ordered eviction, a periodic sweep,
a stats snapshot, and an MD5-based cache-key builder.

The Go code is shallowly embedded: `time.Time` becomes `Int` (an absolute
instant, passed explicitly as `now` to every operation that reads the clock),
`time.Duration` becomes `Int`, `int`/`int64` counters become `Int`, the
`map[string]*item` becomes an association list with unique keys (the list
order stands in for Go's map iteration order; the claims below never depend
on it: they either fix concrete inputs or assume pairwise-distinct
expirations), and Go strings become either Lean `String` (cache keys, never
inspected byte-wise) or `List Nat` of bytes (key-builder components, which
are hashed byte-wise).
-/

namespace Pgweb

/-! ## MD5 (crypto/md5), used by `GenerateKey` -/

/-- Bytes of an ASCII string (Go strings are UTF-8 byte sequences; every
component used by the claims is ASCII, where code points equal bytes). -/
def strBytes (s : String) : List Nat := s.toList.map Char.toNat

/-- The 64 MD5 round constants `K[i] = floor(2^32 * abs(sin(i+1)))`. -/
def md5K : List Nat :=
  [0xd76aa478, 0xe8c7b756, 0x242070db, 0xc1bdceee,
   0xf57c0faf, 0x4787c62a, 0xa8304613, 0xfd469501,
   0x698098d8, 0x8b44f7af, 0xffff5bb1, 0x895cd7be,
   0x6b901122, 0xfd987193, 0xa679438e, 0x49b40821,
   0xf61e2562, 0xc040b340, 0x265e5a51, 0xe9b6c7aa,
   0xd62f105d, 0x02441453, 0xd8a1e681, 0xe7d3fbc8,
   0x21e1cde6, 0xc33707d6, 0xf4d50d87, 0x455a14ed,
   0xa9e3e905, 0xfcefa3f8, 0x676f02d9, 0x8d2a4c8a,
   0xfffa3942, 0x8771f681, 0x6d9d6122, 0xfde5380c,
   0xa4beea44, 0x4bdecfa9, 0xf6bb4b60, 0xbebfbc70,
   0x289b7ec6, 0xeaa127fa, 0xd4ef3085, 0x04881d05,
   0xd9d4d039, 0xe6db99e5, 0x1fa27cf8, 0xc4ac5665,
   0xf4292244, 0x432aff97, 0xab9423a7, 0xfc93a039,
   0x655b59c3, 0x8f0ccc92, 0xffeff47d, 0x85845dd1,
   0x6fa87e4f, 0xfe2ce6e0, 0xa3014314, 0x4e0811a1,
   0xf7537e82, 0xbd3af235, 0x2ad7d2bb, 0xeb86d391]

/-- The 64 MD5 per-round left-rotation amounts. -/
def md5S : List Nat :=
  [7, 12, 17, 22, 7, 12, 17, 22, 7, 12, 17, 22, 7, 12, 17, 22,
   5, 9, 14, 20, 5, 9, 14, 20, 5, 9, 14, 20, 5, 9, 14, 20,
   4, 11, 16, 23, 4, 11, 16, 23, 4, 11, 16, 23, 4, 11, 16, 23,
   6, 10, 15, 21, 6, 10, 15, 21, 6, 10, 15, 21, 6, 10, 15, 21]

/-- 32-bit left rotation on a `Nat` below `2 ^ 32`. -/
def rotl32 (x s : Nat) : Nat := ((x <<< s) % 2 ^ 32) ||| (x >>> (32 - s))

/-- One MD5 round: round `i` applied to state `(a, b, c, d)` with message
words `X`. -/
def md5Round (X : List Nat) (st : Nat × Nat × Nat × Nat) (i : Nat) : Nat × Nat × Nat × Nat :=
  let (a, b, c, d) := st
  let f :=
    if i < 16 then (b &&& c) ||| ((b ^^^ 0xffffffff) &&& d)
    else if i < 32 then (b &&& d) ||| (c &&& (d ^^^ 0xffffffff))
    else if i < 48 then b ^^^ c ^^^ d
    else c ^^^ (b ||| (d ^^^ 0xffffffff))
  let g :=
    if i < 16 then i
    else if i < 32 then (5 * i + 1) % 16
    else if i < 48 then (3 * i + 5) % 16
    else (7 * i) % 16
  let t := (a + f + md5K.getD i 0 + X.getD g 0) % 2 ^ 32
  (d, (b + rotl32 t (md5S.getD i 0)) % 2 ^ 32, b, c)

/-- A little-endian 32-bit word from a list of bytes. -/
def bytesToWordLE (bs : List Nat) : Nat := bs.foldr (fun b acc => b + 256 * acc) 0

/-- A 64-byte block as 16 little-endian 32-bit words. -/
def toWords (block : List Nat) : List Nat :=
  (List.range 16).map (fun j => bytesToWordLE ((block.drop (4 * j)).take 4))

/-- Compression of one 64-byte block into the running MD5 state. -/
def md5Block (st : Nat × Nat × Nat × Nat) (block : List Nat) : Nat × Nat × Nat × Nat :=
  let X := toWords block
  let r := (List.range 64).foldl (md5Round X) st
  ((st.1 + r.1) % 2 ^ 32, (st.2.1 + r.2.1) % 2 ^ 32,
   (st.2.2.1 + r.2.2.1) % 2 ^ 32, (st.2.2.2 + r.2.2.2) % 2 ^ 32)

/-- Fold the compression over consecutive 64-byte blocks; the fuel argument is
the number of blocks (the padded message length divided by 64). -/
def md5Blocks : Nat → (Nat × Nat × Nat × Nat) → List Nat → Nat × Nat × Nat × Nat
  | 0, st, _ => st
  | n + 1, st, bytes => md5Blocks n (md5Block st (bytes.take 64)) (bytes.drop 64)

/-- The `count` low-order bytes of `n`, little-endian. -/
def wordToBytesLE (n : Nat) (count : Nat) : List Nat :=
  (List.range count).map (fun j => (n >>> (8 * j)) % 256)

/-- MD5 padding: a `0x80` byte, zeros to 56 mod 64, then the original bit
length as a little-endian 64-bit quantity. -/
def md5Pad (msg : List Nat) : List Nat :=
  let len := msg.length
  let zeros := (64 + 56 - (len + 1) % 64) % 64
  msg ++ [128] ++ List.replicate zeros 0 ++ wordToBytesLE ((8 * len) % 2 ^ 64) 8

/-- The 16-byte MD5 digest of a byte sequence (`md5.Sum`). -/
def md5Bytes (msg : List Nat) : List Nat :=
  let padded := md5Pad msg
  let r := md5Blocks (padded.length / 64) (0x67452301, 0xefcdab89, 0x98badcfe, 0x10325476) padded
  wordToBytesLE r.1 4 ++ wordToBytesLE r.2.1 4 ++ wordToBytesLE r.2.2.1 4 ++
    wordToBytesLE r.2.2.2 4

/-- Lowercase hex digit, as an ASCII code. -/
def hexDigitChar (n : Nat) : Nat := if n < 10 then 48 + n else 87 + n

/-- Lowercase hex rendering of a byte sequence, as ASCII codes
(`fmt.Sprintf` with the x verb). -/
def toHexBytes (bs : List Nat) : List Nat :=
  bs.foldr (fun b acc => hexDigitChar (b / 16) :: hexDigitChar (b % 16) :: acc) []

/-- `GenerateKey(components...)`: concatenate every component followed by a
`0x7c` separator byte, MD5-hash the concatenation, and render the digest as a
32-character lowercase hex string (returned here as ASCII codes). -/
def GenerateKey (components : List (List Nat)) : List Nat :=
  let combined := components.foldl (fun acc comp => acc ++ comp ++ [124]) []
  toHexBytes (md5Bytes combined)

/-! ## The cache store -/

/-- Cached Go values. The source's `estimateSize` dispatches on the runtime
kind of an `interface\x7b\x7d` value; the claims only ever cache `nil` and
string values, so the value universe is restricted to those two kinds (the
cache operations treat the value as fully opaque apart from its estimate). -/
inductive GoVal where
  | goNil
  | goStr (bytes : List Nat)
deriving DecidableEq

/-- `estimateSize`: the `nil` branch (pointer size 8) and the
`reflect.String` branch (byte length plus a 16-byte string header) of the
source's reflection-based estimator, covering the restricted value universe. -/
def estimateSize : GoVal → Int
  | .goNil => 8
  | .goStr s => (s.length : Int) + 16

/-- An `item`: the stored value, its absolute expiration instant, and its
estimated size in bytes. -/
structure Item where
  value : GoVal
  expiresAt : Int
  size : Int
deriving DecidableEq

/-- The `Cache` struct. `items` is the `map[string]*item`, embedded as an
association list whose keys are unique in every reachable state;
`currentSize` is the running memory total. The mutex is a no-op in this
sequential embedding. -/
structure Cache where
  items : List (String × Item)
  defaultTTL : Int
  maxItems : Int
  maxMemory : Int
  currentSize : Int
deriving DecidableEq

/-- Map lookup: the entry stored under `k`, if any. -/
def findItem (l : List (String × Item)) (k : String) : Option Item :=
  (l.find? (fun p => p.1 == k)).map (fun p => p.2)

/-- Map update `m[k] = it`: any previous binding of `k` is replaced. -/
def insertItem (l : List (String × Item)) (k : String) (it : Item) : List (String × Item) :=
  l.filter (fun p => !(p.1 == k)) ++ [(k, it)]

/-- `items[i].item.expiresAt.After(items[j].item.expiresAt)`: the swap test of
the eviction sort. -/
def expAfter (p q : String × Item) : Bool := decide (q.2.expiresAt < p.2.expiresAt)

/-- One pass of the source's double-loop sort: the inner `j` loop for a fixed
`i`, which swaps the current front element with every later element that
expires sooner. Returns the final front element (the minimum) and the
resulting remainder. -/
def goSortPass : (String × Item) → List (String × Item) → (String × Item) × List (String × Item)
  | x, [] => (x, [])
  | x, y :: ys =>
    if expAfter x y then
      let r := goSortPass y ys
      (r.1, x :: r.2)
    else
      let r := goSortPass x ys
      (r.1, y :: r.2)

/-- The outer `i` loop of the source's sort, fueled by the list length so the
recursion is structural. -/
def goSortFuel : Nat → List (String × Item) → List (String × Item)
  | 0, _ => []
  | _ + 1, [] => []
  | n + 1, x :: xs =>
    let r := goSortPass x xs
    r.1 :: goSortFuel n r.2

/-- The source's pairwise-swap sort of the collected entries by ascending
expiration time. -/
def goSort (l : List (String × Item)) : List (String × Item) := goSortFuel l.length l

/-- `now.After(item.expiresAt)`: the expiry test used by every operation. -/
def isExpired (now : Int) (p : String × Item) : Bool := decide (p.2.expiresAt < now)

/-- `Get`: `none` when the key is absent or the entry has expired
(strictly-after comparison); the expired entry itself is left in place. -/
def Cache.get (c : Cache) (now : Int) (key : String) : Option GoVal :=
  match findItem c.items key with
  | none => none
  | some it => if it.expiresAt < now then none else some it.value

/-- `Delete`: remove the entry, decrementing `currentSize` by its size. -/
def Cache.delete (c : Cache) (key : String) : Cache :=
  match findItem c.items key with
  | none => c
  | some it =>
    { c with items := c.items.filter (fun p => !(p.1 == key)),
             currentSize := c.currentSize - it.size }

/-- `Clear`: drop every entry and reset `currentSize` to zero. -/
def Cache.clear (c : Cache) : Cache := { c with items := [], currentSize := 0 }

/-- `evictExpired`: remove every expired entry and subtract each removed
entry's size from `currentSize`. -/
def Cache.evictExpired (c : Cache) (now : Int) : Cache :=
  { c with
    items := c.items.filter (fun p => !(isExpired now p)),
    currentSize := c.currentSize -
      ((c.items.filter (isExpired now)).map (fun p => p.2.size)).sum }

/-- One pass of the `cleanup` ticker loop (the periodic sweep): it deletes
every expired entry from the map but — unlike `evictExpired` — performs no
`currentSize` adjustment. -/
def Cache.cleanupPass (c : Cache) (now : Int) : Cache :=
  { c with items := c.items.filter (fun p => !(isExpired now p)) }

/-- Delete from the map every key appearing in `removed`. -/
def removeKeys (l : List (String × Item)) (removed : List (String × Item)) :
    List (String × Item) :=
  l.filter (fun p => !(removed.any (fun q => q.1 == p.1)))

/-- `evictOldest(count)`: sort the entries by ascending expiration, then
delete the first `count` of them, subtracting their sizes. -/
def Cache.evictOldest (c : Cache) (count : Int) : Cache :=
  if count ≤ 0 then c
  else
    let removed := (goSort c.items).take count.toNat
    { c with items := removeKeys c.items removed,
             currentSize := c.currentSize - (removed.map (fun p => p.2.size)).sum }

/-- The removal loop of `evictOldestBySize`: take sorted entries while the
bytes freed so far are still below the target. -/
def takeUntilFreed : List (String × Item) → Int → List (String × Item)
  | [], _ => []
  | p :: rest, target =>
    if target ≤ 0 then []
    else p :: takeUntilFreed rest (target - p.2.size)

/-- `evictOldestBySize(targetBytesToFree)`: delete entries in ascending
expiration order until the target number of bytes is freed. -/
def Cache.evictOldestBySize (c : Cache) (target : Int) : Cache :=
  if target ≤ 0 then c
  else
    let removed := takeUntilFreed (goSort c.items) target
    { c with items := removeKeys c.items removed,
             currentSize := c.currentSize - (removed.map (fun p => p.2.size)).sum }

/-- `evictToFitMemory(newItemSize)`: purge expired entries, then free
ascending-expiration entries until `currentSize` fits under
`maxMemory - newItemSize`. -/
def Cache.evictToFitMemory (c : Cache) (now : Int) (newItemSize : Int) : Cache :=
  let targetSize := c.maxMemory - newItemSize
  let c1 := c.evictExpired now
  if targetSize < c1.currentSize then c1.evictOldestBySize (c1.currentSize - targetSize)
  else c1

/-- `Set(key, value, ttl)`, with the clock sampled once as `now`: default the
TTL, run the item-count eviction path, subtract a replaced entry's size, run
the memory eviction path, then store the new entry and add its size. -/
def Cache.set (c : Cache) (now : Int) (key : String) (value : GoVal) (ttl : Int) : Cache :=
  let t := if ttl = 0 then c.defaultTTL else ttl
  let c1 :=
    if 0 < c.maxItems ∧ c.maxItems ≤ (c.items.length : Int) then
      let c2 := c.evictExpired now
      if c2.maxItems ≤ (c2.items.length : Int) then
        c2.evictOldest ((c2.items.length : Int) - c2.maxItems + 1)
      else c2
    else c
  let itemSize := estimateSize value
  let c3 :=
    match findItem c1.items key with
    | some it => { c1 with currentSize := c1.currentSize - it.size }
    | none => c1
  let c4 :=
    if 0 < c3.maxMemory ∧ c3.maxMemory < c3.currentSize + itemSize then
      c3.evictToFitMemory now itemSize
    else c3
  { c4 with
    items := insertItem c4.items key { value := value, expiresAt := now + t, size := itemSize },
    currentSize := c4.currentSize + itemSize }

/-- The fields of the `map[string]interface\x7b\x7d` returned by `Stats`. -/
structure CacheStats where
  total_items : Nat
  expired_items : Nat
  active_items : Int
  memory_used_mb : Int
  memory_limit_mb : Int
  memory_used_bytes : Int
deriving DecidableEq

/-- `Stats()`: the method returns a snapshot and writes no field of the
receiver; its embedding returns the (unchanged) receiver next to the
snapshot. Divisions are Go's truncating `int64` division. -/
def Cache.statsRun (c : Cache) (now : Int) : Cache × CacheStats :=
  let expired := c.items.countP (fun p => isExpired now p)
  (c,
   { total_items := c.items.length
     expired_items := expired
     active_items := (c.items.length : Int) - (expired : Int)
     memory_used_mb := Int.tdiv c.currentSize (1024 * 1024)
     memory_limit_mb := Int.tdiv c.maxMemory (1024 * 1024)
     memory_used_bytes := c.currentSize })

/-- Sum of the estimated sizes of the entries currently stored in the map:
the quantity the spec says `currentSize` always equals. -/
def sizeSum (c : Cache) : Int := (c.items.map (fun p => p.2.size)).sum

/-- A cache as `NewWithoutCleanup` builds it, but with every bound explicit:
no entries, zero running size, and the given default TTL, item bound, and
memory bound. -/
def emptyCache (ttl maxIt maxMem : Int) : Cache :=
  { items := [], defaultTTL := ttl, maxItems := maxIt, maxMemory := maxMem, currentSize := 0 }

/-- A value whose `estimateSize` is exactly 40 bytes: a 24-byte string. -/
def v40 : GoVal := .goStr (List.replicate 24 120)

/-- The size field of the entry currently stored under `k` (0 when absent):
the amount `Set` subtracts before re-adding a replaced key. -/
def oldSize (c : Cache) (k : String) : Int :=
  match findItem c.items k with
  | none => 0
  | some it => it.size

/-! ## Concrete states used as evidence -/

/-- A single entry set at time 0 with TTL 5 (so it expires at instant 5). -/
def c3state : Cache := (emptyCache 100 0 0).set 0 "kk" v40 5

/-- A single 40-byte entry expiring at 5, then one periodic-sweep pass at
time 10. -/
def c2state : Cache := ((emptyCache 100 0 0).set 0 "k" v40 5).cleanupPass 10

/-- Two 40-byte entries expiring at 5 and 100, then one periodic-sweep pass
at time 10. -/
def c4state : Cache := (((emptyCache 100 0 0).set 0 "a" v40 5).set 0 "b" v40 100).cleanupPass 10

/-- `maxMemory = 100`: three 40-byte values under `a`, `b`, `c`, in that
order, `a` expiring soonest (expirations 10 < 20 < 30, all set at time 0). -/
def c6state : Cache :=
  (((emptyCache 100 0 100).set 0 "a" v40 10).set 0 "b" v40 20).set 0 "c" v40 30

/-- `maxItems = 3`: four distinct keys inserted at time 0 with distinct,
increasing expirations 10 < 20 < 30 < 40. -/
def c5state : Cache :=
  ((((emptyCache 100 3 0).set 0 "k1" (.goStr [120]) 10).set 0 "k2" (.goStr [120]) 20).set 0
      "k3" (.goStr [120]) 30).set 0 "k4" (.goStr [120]) 40

def c5wit : Cache :=
  { items := [("x", { value := .goNil, expiresAt := 10, size := 8 }),
              ("y", { value := .goNil, expiresAt := 20, size := 8 })],
    defaultTTL := 1, maxItems := 0, maxMemory := 0, currentSize := 16 }

/-! ## Lookup lemmas for the map update -/

theorem find_filter_ne_none (l : List (String × Item)) (k : String) :
    (l.filter (fun p => !(p.1 == k))).find? (fun p => p.1 == k) = none := by
  rw [List.find?_eq_none]
  intro x hx
  have hmem := List.of_mem_filter hx
  simpa using hmem

theorem findItem_insertItem_self (l : List (String × Item)) (k : String) (it : Item) :
    findItem (insertItem l k it) k = some it := by
  unfold findItem insertItem
  rw [List.find?_append, find_filter_ne_none]
  simp

theorem findItem_set_self (c : Cache) (now : Int) (k : String) (v : GoVal) (ttl : Int) :
    findItem (c.set now k v ttl).items k =
      some { value := v, expiresAt := now + (if ttl = 0 then c.defaultTTL else ttl),
             size := estimateSize v } := by
  simp only [Cache.set]
  exact findItem_insertItem_self _ _ _

/-! ## Correctness of the eviction sort -/

theorem goSortPass_length (x : String × Item) (l : List (String × Item)) :
    (goSortPass x l).2.length = l.length := by
  induction l generalizing x with
  | nil => rfl
  | cons y ys ih =>
    rw [goSortPass]
    split <;> simp [ih]

theorem goSortPass_perm (x : String × Item) (l : List (String × Item)) :
    List.Perm ((goSortPass x l).1 :: (goSortPass x l).2) (x :: l) := by
  induction l generalizing x with
  | nil => exact List.Perm.refl _
  | cons y ys ih =>
    rw [goSortPass]
    split
    · dsimp only
      exact (List.Perm.swap _ _ _).trans ((ih y).cons x)
    · dsimp only
      exact ((List.Perm.swap _ _ _).trans ((ih x).cons y)).trans (List.Perm.swap _ _ _)

theorem goSortPass_min (x : String × Item) (l : List (String × Item)) :
    (goSortPass x l).1.2.expiresAt ≤ x.2.expiresAt ∧
      ∀ z ∈ (goSortPass x l).2, (goSortPass x l).1.2.expiresAt ≤ z.2.expiresAt := by
  induction l generalizing x with
  | nil => exact ⟨le_refl _, by intro z hz; cases hz⟩
  | cons y ys ih =>
    rw [goSortPass]
    by_cases h : expAfter x y
    · rw [if_pos h]
      simp only [expAfter, decide_eq_true_eq] at h
      obtain ⟨ih1, ih2⟩ := ih y
      refine ⟨le_trans ih1 (le_of_lt h), ?_⟩
      intro z hz
      rcases List.mem_cons.mp hz with hz | hz
      · subst hz; exact le_trans ih1 (le_of_lt h)
      · exact ih2 z hz
    · rw [if_neg h]
      simp only [expAfter, decide_eq_true_eq, not_lt] at h
      obtain ⟨ih1, ih2⟩ := ih x
      refine ⟨ih1, ?_⟩
      intro z hz
      rcases List.mem_cons.mp hz with hz | hz
      · subst hz; exact le_trans ih1 h
      · exact ih2 z hz

theorem goSortFuel_perm :
    ∀ (n : Nat) (l : List (String × Item)), l.length ≤ n →
      List.Perm (goSortFuel n l) l := by
  intro n
  induction n with
  | zero =>
    intro l h
    rw [List.length_eq_zero.mp (Nat.le_zero.mp h)]
    exact List.Perm.refl _
  | succ n ih =>
    intro l h
    cases l with
    | nil => exact List.Perm.refl _
    | cons x xs =>
      rw [goSortFuel]
      have hlen : (goSortPass x xs).2.length ≤ n := by
        rw [goSortPass_length]
        simpa using h
      exact ((ih _ hlen).cons _).trans (goSortPass_perm x xs)

theorem goSortFuel_sorted :
    ∀ (n : Nat) (l : List (String × Item)), l.length ≤ n →
      (goSortFuel n l).Pairwise (fun a b => a.2.expiresAt ≤ b.2.expiresAt) := by
  intro n
  induction n with
  | zero => intro l h; rw [goSortFuel]; exact List.Pairwise.nil
  | succ n ih =>
    intro l h
    cases l with
    | nil => rw [goSortFuel]; exact List.Pairwise.nil
    | cons x xs =>
      rw [goSortFuel]
      have hlen : (goSortPass x xs).2.length ≤ n := by
        rw [goSortPass_length]
        simpa using h
      refine List.Pairwise.cons ?_ (ih _ hlen)
      intro b hb
      exact (goSortPass_min x xs).2 b ((goSortFuel_perm n _ hlen).mem_iff.mp hb)

theorem goSort_perm (l : List (String × Item)) : List.Perm (goSort l) l :=
  goSortFuel_perm l.length l le_rfl

theorem goSort_sorted (l : List (String × Item)) :
    (goSort l).Pairwise (fun a b => a.2.expiresAt ≤ b.2.expiresAt) :=
  goSortFuel_sorted l.length l le_rfl

/-! ## Removing the sorted prefix: what `evictOldest` keeps -/

theorem filter_keys_split (S R D : List (String × Item)) (hS : S = R ++ D)
    (hk : (S.map Prod.fst).Nodup) : removeKeys S R = D := by
  subst hS
  rw [List.map_append] at hk
  rcases List.nodup_append.mp hk with ⟨-, -, hdisj⟩
  unfold removeKeys
  rw [List.filter_append]
  have h1 : R.filter (fun p => !(R.any (fun q => q.1 == p.1))) = [] := by
    rw [List.filter_eq_nil_iff]
    intro a ha
    simp only [Bool.not_eq_true', Bool.not_eq_false, List.any_eq_true]
    exact ⟨a, ha, by simp⟩
  have h2 : D.filter (fun p => !(R.any (fun q => q.1 == p.1))) = D := by
    rw [List.filter_eq_self]
    intro a ha
    rw [Bool.not_eq_true', List.any_eq_false]
    intro q hq heq
    have heq2 : q.1 = a.1 := by simpa using heq
    exact hdisj (List.mem_map_of_mem _ hq) (by rw [heq2]; exact List.mem_map_of_mem _ ha)
  rw [h1, h2, List.nil_append]

theorem evictOldest_spec (c : Cache) (count : Int)
    (hk : (c.items.map Prod.fst).Nodup)
    (he : (c.items.map (fun p => p.2.expiresAt)).Nodup)
    (hpos : 0 < count) :
    (c.evictOldest count).items.length = c.items.length - count.toNat ∧
      (∀ p ∈ (c.evictOldest count).items, p ∈ c.items) ∧
      (∀ p ∈ (c.evictOldest count).items, ∀ q ∈ c.items,
        q ∉ (c.evictOldest count).items → q.2.expiresAt < p.2.expiresAt) := by
  have hif : ¬ count ≤ 0 := not_le.mpr hpos
  have hitems : (c.evictOldest count).items =
      removeKeys c.items ((goSort c.items).take count.toNat) := by
    rw [Cache.evictOldest, if_neg hif]
  have hperm := goSort_perm c.items
  have hkS : ((goSort c.items).map Prod.fst).Nodup := (hperm.map Prod.fst).nodup_iff.mpr hk
  have heS : ((goSort c.items).map (fun p => p.2.expiresAt)).Nodup :=
    (hperm.map _).nodup_iff.mpr he
  have hsplitEq : removeKeys (goSort c.items) ((goSort c.items).take count.toNat) =
      (goSort c.items).drop count.toNat :=
    filter_keys_split _ _ _ (List.take_append_drop _ _).symm hkS
  have hker : List.Perm (removeKeys c.items ((goSort c.items).take count.toNat))
      ((goSort c.items).drop count.toNat) := by
    have hfil : List.Perm (removeKeys c.items ((goSort c.items).take count.toNat))
        (removeKeys (goSort c.items) ((goSort c.items).take count.toNat)) :=
      List.Perm.filter _ hperm.symm
    rw [hsplitEq] at hfil
    exact hfil
  rw [hitems]
  refine ⟨?_, ?_, ?_⟩
  · rw [hker.length_eq, List.length_drop, hperm.length_eq]
  · intro p hp
    exact hperm.mem_iff.mp (List.drop_subset _ _ (hker.mem_iff.mp hp))
  · intro p hp q hq hqnot
    have hpD : p ∈ (goSort c.items).drop count.toNat := hker.mem_iff.mp hp
    have hqS : q ∈ goSort c.items := hperm.mem_iff.mpr hq
    have hqR : q ∈ (goSort c.items).take count.toNat := by
      have hq2 : q ∈ (goSort c.items).take count.toNat ++ (goSort c.items).drop count.toNat := by
        rw [List.take_append_drop]
        exact hqS
      rcases List.mem_append.mp hq2 with h | h
      · exact h
      · exact absurd (hker.mem_iff.mpr h) hqnot
    have hsorted := goSort_sorted c.items
    rw [← List.take_append_drop count.toNat (goSort c.items)] at hsorted heS
    rcases List.pairwise_append.mp hsorted with ⟨-, -, hle2⟩
    have hne : q.2.expiresAt ≠ p.2.expiresAt := by
      rw [List.map_append] at heS
      rcases List.nodup_append.mp heS with ⟨-, -, hdisj⟩
      intro heq
      exact hdisj (List.mem_map_of_mem _ hqR) (by rw [heq]; exact List.mem_map_of_mem _ hpD)
    exact lt_of_le_of_ne (hle2 q hqR p hpD) hne

/-! ## The no-trigger normal form of `Set` -/

theorem insertItem_insertItem (l : List (String × Item)) (k : String) (it1 it2 : Item) :
    insertItem (insertItem l k it1) k it2 = insertItem l k it2 := by
  unfold insertItem
  rw [List.filter_append]
  simp [List.filter_filter, Bool.and_self]

theorem countP_insertItem (l : List (String × Item)) (k : String) (it : Item) :
    (insertItem l k it).countP (fun p => p.1 == k) = 1 := by
  unfold insertItem
  rw [List.countP_append]
  have h0 : (l.filter (fun p => !(p.1 == k))).countP (fun p => p.1 == k) = 0 := by
    rw [List.countP_eq_zero]
    intro a ha
    have hmem := List.of_mem_filter ha
    simp at hmem ⊢
    exact hmem
  rw [h0]
  simp [List.countP_cons]

theorem set_of_no_trigger (c : Cache) (now : Int) (k : String) (v : GoVal) (ttl : Int)
    (h1 : ¬(0 < c.maxItems ∧ c.maxItems ≤ (c.items.length : Int)))
    (h2 : ¬(0 < c.maxMemory ∧ c.maxMemory < c.currentSize - oldSize c k + estimateSize v)) :
    c.set now k v ttl =
      { c with
        items := insertItem c.items k
          { value := v, expiresAt := now + (if ttl = 0 then c.defaultTTL else ttl),
            size := estimateSize v },
        currentSize := c.currentSize - oldSize c k + estimateSize v } := by
  obtain ⟨items, dttl, mi, mm, cs⟩ := c
  dsimp only at h1 h2 ⊢
  simp only [Cache.set]
  rw [if_neg h1]
  rcases hf : findItem items k with _ | it
  · simp only [oldSize, hf] at h2 ⊢
    rw [sub_zero] at h2
    rw [if_neg h2]
    rw [sub_zero]
  · simp only [oldSize, hf] at h2 ⊢
    rw [if_neg h2]


/-! ## Claim theorems (each preceded by its claim id), with witnesses -/

/-- C7: `Set` idempotence / no double counting — when neither the capacity
path nor the memory path triggers, calling `Set(k, v, ttl)` twice in a row
(at the same instant) produces the same state as calling it once, that state
holds exactly one entry for `k`, and `currentSize` reflects exactly one
instance of `v`'s estimated size: the old entry's size is subtracted before
the new size is added. -/
theorem set_idempotent (c : Cache) (now : Int) (k : String) (v : GoVal) (ttl : Int)
    (h1 : ¬(0 < c.maxItems ∧ c.maxItems ≤ (c.items.length : Int)))
    (h2 : ¬(0 < c.maxMemory ∧ c.maxMemory < c.currentSize - oldSize c k + estimateSize v))
    (h3 : ¬(0 < c.maxItems ∧ c.maxItems ≤ ((c.set now k v ttl).items.length : Int))) :
    (c.set now k v ttl).set now k v ttl = c.set now k v ttl ∧
      ((c.set now k v ttl).items.countP (fun p => p.1 == k)) = 1 ∧
      (c.set now k v ttl).currentSize = c.currentSize - oldSize c k + estimateSize v := by
  have e1 := set_of_no_trigger c now k v ttl h1 h2
  rw [e1] at h3 ⊢
  refine ⟨?_, countP_insertItem _ _ _, rfl⟩
  have ho2 : oldSize { c with
      items := insertItem c.items k
        { value := v, expiresAt := now + (if ttl = 0 then c.defaultTTL else ttl),
          size := estimateSize v },
      currentSize := c.currentSize - oldSize c k + estimateSize v } k = estimateSize v := by
    rw [oldSize, findItem_insertItem_self]
  have hB : ¬(0 < ({ c with
      items := insertItem c.items k
        { value := v, expiresAt := now + (if ttl = 0 then c.defaultTTL else ttl),
          size := estimateSize v },
      currentSize := c.currentSize - oldSize c k + estimateSize v } : Cache).maxMemory ∧
      ({ c with
      items := insertItem c.items k
        { value := v, expiresAt := now + (if ttl = 0 then c.defaultTTL else ttl),
          size := estimateSize v },
      currentSize := c.currentSize - oldSize c k + estimateSize v } : Cache).maxMemory <
        ({ c with
      items := insertItem c.items k
        { value := v, expiresAt := now + (if ttl = 0 then c.defaultTTL else ttl),
          size := estimateSize v },
      currentSize := c.currentSize - oldSize c k + estimateSize v } : Cache).currentSize -
          oldSize { c with
      items := insertItem c.items k
        { value := v, expiresAt := now + (if ttl = 0 then c.defaultTTL else ttl),
          size := estimateSize v },
      currentSize := c.currentSize - oldSize c k + estimateSize v } k + estimateSize v) := by
    rw [ho2]
    dsimp only
    intro hcon
    exact h2 ⟨hcon.1, by have := hcon.2; omega⟩
  have e2 := set_of_no_trigger _ now k v ttl h3 hB
  rw [e2, ho2]
  dsimp only
  rw [insertItem_insertItem]
  congr 1
  omega

/-- C5: eviction ordering — when `count` entries must be evicted from a
store whose entries have pairwise-distinct keys and pairwise-distinct
expiration times, exactly `count` entries are removed, every survivor was
stored before, and every removed entry expires strictly sooner than every
survivor (so exactly the `count` nearest-to-expiring entries go); and
concretely, with `maxItems = 3`, inserting 4 distinct keys with distinct
increasing expirations leaves exactly the 3 entries with the furthest
expirations. -/
theorem evictOldest_removes_nearest :
    (∀ (c : Cache) (count : Int),
        (c.items.map Prod.fst).Nodup →
        (c.items.map (fun p => p.2.expiresAt)).Nodup →
        0 < count →
        (c.evictOldest count).items.length = c.items.length - count.toNat ∧
          (∀ p ∈ (c.evictOldest count).items, p ∈ c.items) ∧
          (∀ p ∈ (c.evictOldest count).items, ∀ q ∈ c.items,
            q ∉ (c.evictOldest count).items → q.2.expiresAt < p.2.expiresAt)) ∧
      (c5state.items.map Prod.fst = ["k2", "k3", "k4"] ∧
        findItem c5state.items "k1" = none ∧ c5state.items.length = 3) :=
  ⟨fun c count hk he hpos => evictOldest_spec c count hk he hpos, by decide⟩

theorem evictOldest_removes_nearest_witness :
    (c5wit.evictOldest 1).items.length = c5wit.items.length - (1 : Int).toNat ∧
      (∀ p ∈ (c5wit.evictOldest 1).items, p ∈ c5wit.items) ∧
      (∀ p ∈ (c5wit.evictOldest 1).items, ∀ q ∈ c5wit.items,
        q ∉ (c5wit.evictOldest 1).items → q.2.expiresAt < p.2.expiresAt) :=
  evictOldest_removes_nearest.1 c5wit 1 (by decide) (by decide) (by decide)

theorem set_idempotent_witness :
    ((emptyCache 100 0 0).set 0 "w" v40 5).set 0 "w" v40 5 =
        (emptyCache 100 0 0).set 0 "w" v40 5 ∧
      (((emptyCache 100 0 0).set 0 "w" v40 5).items.countP (fun p => p.1 == "w")) = 1 ∧
      ((emptyCache 100 0 0).set 0 "w" v40 5).currentSize =
        (emptyCache 100 0 0).currentSize - oldSize (emptyCache 100 0 0) "w" + estimateSize v40 :=
  set_idempotent (emptyCache 100 0 0) 0 "w" v40 5 (by decide) (by decide) (by decide)

/-- C8: oversized-item policy — the uniformly-applied branch of the source
is admit-and-exceed: for every prior state and every value whose estimated
size alone exceeds a positive memory bound, `Set` still stores the entry
under its key with its full estimated size (the write is never rejected),
letting the running total exceed the bound by at least the entry's own
overshoot. -/
theorem oversized_value_admitted (c : Cache) (now : Int) (k : String) (v : GoVal) (ttl : Int)
    (_hbound : 0 < c.maxMemory) (_hover : c.maxMemory < estimateSize v) :
    findItem (c.set now k v ttl).items k =
      some { value := v, expiresAt := now + (if ttl = 0 then c.defaultTTL else ttl),
             size := estimateSize v } :=
  findItem_set_self c now k v ttl

theorem oversized_value_admitted_witness :
    findItem (((emptyCache 100 0 10).set 0 "big" v40 5).items) "big" =
      some { value := v40,
             expiresAt := 0 + (if (5 : Int) = 0 then (emptyCache 100 0 10).defaultTTL else 5),
             size := estimateSize v40 } :=
  oversized_value_admitted (emptyCache 100 0 10) 0 "big" v40 5 (by decide) (by decide)

/-! ## Claim theorems, continued -/

/-- C1: role isolation of the key builder — `GenerateKey` applied to
`["SELECT 1", "conn://x", "roleA"]` and to `["SELECT 1", "conn://x", "roleB"]`
returns different fingerprints, so the two roles get distinct cache keys for
the identical statement over the identical connection. -/
theorem generateKey_role_isolation :
    GenerateKey [strBytes "SELECT 1", strBytes "conn://x", strBytes "roleA"] ≠
      GenerateKey [strBytes "SELECT 1", strBytes "conn://x", strBytes "roleB"] := by
  decide

/-- C2 (evidence of the code bug): after the sequence `Set` then one periodic
sweep pass, the map is empty yet `currentSize` still reports the removed
entry's 40 bytes, so `currentSize` no longer equals the sum of the stored
entries' estimated sizes — the sweep loop deletes entries without adjusting
the running total. -/
theorem sweep_breaks_accounting :
    c2state.items = [] ∧ c2state.currentSize = 40 ∧ sizeSum c2state = 0 ∧
      c2state.currentSize ≠ sizeSum c2state := by
  decide

/-- C3 (counterexample): with an entry whose expiration instant is 5, `Get`
at wall-clock instant 5 — exactly at the expiration, hence `now ≥ expiresAt`
— still returns the value, contradicting the claim that `found = false` once
the clock is at or past the expiration. The source only expires strictly
after (`time.Now().After(expiresAt)`). -/
theorem get_at_expiry_boundary :
    (findItem c3state.items "kk").map Item.expiresAt = some 5 ∧
      c3state.get 5 "kk" = some v40 := by
  decide

/-- C3 (amended): after `Set(k, v, ttl)` at instant `t0`, `Get(k)` at instant
`t` returns the value exactly while `t ≤ t0 + ttl'` (where `ttl'` is the
store default if `ttl = 0`), and `found = false` once `t` is strictly past
the expiration — with no other operation in between; the expired entry is
not removed by the read (`get` does not touch the state). -/
theorem get_after_set (c : Cache) (t0 : Int) (k : String) (v : GoVal) (ttl t : Int) :
    (c.set t0 k v ttl).get t k =
      if t ≤ t0 + (if ttl = 0 then c.defaultTTL else ttl) then some v else none := by
  rw [Cache.get, findItem_set_self]
  dsimp only
  split_ifs with h1 h2 <;> first | rfl | omega

/-- C4 (evidence of the code bug): a sweep pass at instant 10 over entries
expiring at 5 and 100 removes exactly the expired entry, but leaves
`currentSize` at 80 instead of adjusting it downward by the removed entry's
40 bytes: the accounting total no longer reflects the surviving entries. -/
theorem sweep_leaves_stale_size :
    c4state.items.map Prod.fst = ["b"] ∧ c4state.currentSize = 80 ∧ sizeSum c4state = 40 := by
  decide

/-- C6: memory-bound eviction — with `maxMemory = 100` bytes and three
40-byte values set under `a`, `b`, `c` in that order with `a` expiring
soonest, inserting `c` evicts `a` (expired entries are purged first, then the
nearest-to-expiring entries until the new value fits), leaving exactly `b`
and `c` with `currentSize = 80`. -/
theorem memory_bound_evicts_soonest :
    c6state.items.map Prod.fst = ["b", "c"] ∧ findItem c6state.items "a" = none ∧
      c6state.currentSize = 80 := by
  decide

/-- C9: `Stats` is a pure snapshot — the receiver is returned unchanged (the
method writes no field), and the snapshot reports the total entry count, the
expired-but-unswept count, the active count equal to total minus expired, the
memory used in bytes and in MB, and the configured memory limit in MB. -/
theorem stats_pure_snapshot (c : Cache) (now : Int) :
    (c.statsRun now).1 = c ∧
      (c.statsRun now).2.total_items = c.items.length ∧
      (c.statsRun now).2.expired_items = c.items.countP (fun p => isExpired now p) ∧
      (c.statsRun now).2.active_items =
        ((c.statsRun now).2.total_items : Int) - ((c.statsRun now).2.expired_items : Int) ∧
      (c.statsRun now).2.memory_used_bytes = c.currentSize ∧
      (c.statsRun now).2.memory_used_mb = Int.tdiv c.currentSize (1024 * 1024) ∧
      (c.statsRun now).2.memory_limit_mb = Int.tdiv c.maxMemory (1024 * 1024) := by
  exact ⟨rfl, rfl, rfl, rfl, rfl, rfl, rfl⟩

/-- C10: separator ambiguity of the key builder — the distinct component
lists `["a|", "b"]` and `["a", "|b"]` concatenate (with the `|` separator) to
the same pre-hash byte string, so `GenerateKey` returns the identical
fingerprint with certainty, independent of any hash collision. -/
theorem generateKey_separator_collision :
    [strBytes "a|", strBytes "b"] ≠ [strBytes "a", strBytes "|b"] ∧
      GenerateKey [strBytes "a|", strBytes "b"] =
        GenerateKey [strBytes "a", strBytes "|b"] := by
  decide

end Pgweb
